import Mathlib

/-!
Verification development for `fsc_convbond_all_in_one.py`.

This file gives a shallow embedding in Lean 4 of the enrichment and
windowing core of the script: date parsing (`parse_date`), the date
sanity filter (`normalize_date`), the two-venue market lookup with the
run-scoped latest cache (`get_yahoo_ohlcv_by_date`, `get_yahoo_latest_ohlcv`,
`get_tw_ohlcv_by_date`, `get_tw_latest_ohlcv`), the volume-to-lots
conversion, the row-processing loop of `fill_prices_for_file`, the
last-20 trailing window, the LINE message truncation in
`send_line_message`, and `build_summary_message`.

Modelling conventions:
* Python floats are modelled by `ℚ` (exact arithmetic; share volumes and
  prices are far below the scale where binary-float rounding of `x / 1000`
  could change the rounded lot count, and `float` NaN payloads do not
  arise in the modelled data).
* The remote Yahoo Finance provider is an explicit environment `Env`;
  an empty dataframe and a raised transport error are both modelled as
  `none`, exactly as the script treats them (both produce `(None, None)`).
* Python strings are Lean `String`s; `str.strip` is `pyStrip`,
  `len` is `pyLen`, `text[:n]` is `pySlice`.  `str.isdigit` is modelled
  on ASCII digits (the data contains only ASCII digit strings).
* `datetime.date` is the `Date` structure together with the constructor
  `mkDate`, which returns `none` exactly when `datetime.date(y, m, d)`
  raises `ValueError` (components outside the proleptic Gregorian
  calendar, years 1..9999).
-/

set_option maxRecDepth 8000

namespace FscCB

/-- Calendar date, modelling Python `datetime.date` values. -/
structure Date where
  year : Nat
  month : Nat
  day : Nat
  deriving DecidableEq, Repr

/-- Gregorian leap-year test, as used by `datetime`. -/
def isLeap (y : Nat) : Bool :=
  (y % 4 == 0 && y % 100 != 0) || (y % 400 == 0)

/-- Number of days in a month of a given year. -/
def daysInMonth (y m : Nat) : Nat :=
  if m = 2 then (if isLeap y then 29 else 28)
  else if m = 4 ∨ m = 6 ∨ m = 9 ∨ m = 11 then 30
  else 31

/-- Modelling `datetime.date(y, m, d)`: `some` on a valid proleptic
Gregorian date (year 1..9999), `none` when the constructor raises. -/
def mkDate (y m d : Nat) : Option Date :=
  if 1 ≤ y ∧ y ≤ 9999 ∧ 1 ≤ m ∧ m ≤ 12 ∧ 1 ≤ d ∧ d ≤ daysInMonth y m then
    some ⟨y, m, d⟩
  else none

/-- Python date comparison `a < b`: lexicographic on (year, month, day). -/
def dateLt (a b : Date) : Prop :=
  a.year < b.year ∨
    (a.year = b.year ∧
      (a.month < b.month ∨ (a.month = b.month ∧ a.day < b.day)))

instance (a b : Date) : Decidable (dateLt a b) := by
  unfold dateLt; infer_instance

/-- Python date comparison `a <= b`. -/
def dateLe (a b : Date) : Prop :=
  dateLt a b ∨ a = b

instance (a b : Date) : Decidable (dateLe a b) := by
  unfold dateLe; infer_instance

/-- The day after `d`: models `d + datetime.timedelta(days=1)`. -/
def nextDay (d : Date) : Date :=
  if d.day < daysInMonth d.year d.month then ⟨d.year, d.month, d.day + 1⟩
  else if d.month < 12 then ⟨d.year, d.month + 1, 1⟩
  else ⟨d.year + 1, 1, 1⟩

/-- Python whitespace test used by `str.strip`. -/
def pyWS (c : Char) : Bool := c.isWhitespace

/-- Strip leading and trailing whitespace from a character list. -/
def stripList (l : List Char) : List Char :=
  ((l.dropWhile pyWS).reverse.dropWhile pyWS).reverse

/-- Models Python `str.strip()`. -/
def pyStrip (s : String) : String := String.mk (stripList s.data)

/-- Models Python `len(s)` (counts code points, as Python does). -/
def pyLen (s : String) : Nat := s.data.length

/-- Models the Python slice `s[:n]` (by code points, as Python slices). -/
def pySlice (s : String) (n : Nat) : String := String.mk (s.data.take n)

/-- Value of a list of ASCII digit characters, models `int(s)` on a digit
string. -/
def digitsToNat (cs : List Char) : Nat :=
  cs.foldl (fun n c => 10 * n + (c.toNat - 48)) 0

/-- Python `round` on an exact rational value: round to the nearest
integer, ties to the even integer (banker's rounding). -/
def rhe (q : ℚ) : ℤ :=
  if q - (⌊q⌋ : ℚ) < 1/2 then ⌊q⌋
  else if 1/2 < q - (⌊q⌋ : ℚ) then ⌊q⌋ + 1
  else if ⌊q⌋ % 2 = 0 then ⌊q⌋ else ⌊q⌋ + 1

/-- The volume-to-lots conversion inlined three times in
`fill_prices_for_file`: `round(vol_sh / 1000) if vol_sh else None`.
A missing (`None`) or falsy (zero) share volume yields `None`. -/
def unit_lots : Option ℚ → Option ℤ
  | none => none
  | some v => if v = 0 then none else some (rhe (v / 1000))

/-- A raw spreadsheet cell as seen by `parse_date`: `empty` models `None`,
`dateV` models a `datetime.datetime`/`datetime.date` value (only the date
portion is ever used), and `str` models every other value after Python's
`str()` conversion (strings stay themselves, numbers such as `1141021`
become their decimal rendering). -/
inductive CellVal where
  | empty
  | dateV (d : Date)
  | str (s : String)
  deriving DecidableEq, Repr

/-- Separator class (dot, slash or dash) of the ROC regex in
`parse_date`. -/
def isSep (c : Char) : Bool := c = '.' || c = '/' || c = '-'

/-- The 7-digit ROC branch of `parse_date`:
`dt.date(int(s[:3]) + 1911, int(s[3:5]), int(s[5:7]))`. -/
def mk7 (cs : List Char) : Option Date :=
  mkDate (digitsToNat (cs.take 3) + 1911)
    (digitsToNat ((cs.drop 3).take 2))
    (digitsToNat ((cs.drop 5).take 2))

/-- The 8-digit branch of `parse_date`: `strptime(s, "%Y%m%d")`.  On an
8-digit string the `strptime` patterns force a 4-2-2 split whose value
constraints (month 1..12, day 1..31) coincide with `datetime.date`
validity, so the branch equals `mkDate` on that split. -/
def mk8 (cs : List Char) : Option Date :=
  mkDate (digitsToNat (cs.take 4))
    (digitsToNat ((cs.drop 4).take 2))
    (digitsToNat ((cs.drop 6).take 2))

/-- The ROC separated form of `parse_date`: anchored regex of exactly
three digits, a separator (dot, slash or dash), one or two digits,
another separator, one or two digits; then
`dt.date(int(g1) + 1911, int(g2), int(g3))`.  Each
`\d{k}`/`\d{1,2}` group is a maximal digit run (the anchored regex with a
non-digit separator after each group admits no other match). -/
def rocSep (cs : List Char) : Option Date :=
  let p1 := cs.span Char.isDigit
  if p1.1.length = 3 then
    match p1.2 with
    | s1 :: r1 =>
      if isSep s1 then
        let p2 := r1.span Char.isDigit
        if 1 ≤ p2.1.length ∧ p2.1.length ≤ 2 then
          match p2.2 with
          | s2 :: r2 =>
            if isSep s2 then
              let p3 := r2.span Char.isDigit
              if (1 ≤ p3.1.length ∧ p3.1.length ≤ 2) ∧ p3.2 = [] then
                mkDate (digitsToNat p1.1 + 1911) (digitsToNat p2.1)
                  (digitsToNat p3.1)
              else none
            else none
          | [] => none
        else none
      else none
    | [] => none
  else none

/-- One Gregorian `strptime` form with a 4-digit year: `%Y<sep>%m<sep>%d`.
The `strptime` month/day patterns accept 1-2 digit groups whose value
constraints are subsumed by `datetime.date` validity (`mkDate`). -/
def gregY4 (sep : Char) (cs : List Char) : Option Date :=
  let p1 := cs.span Char.isDigit
  if p1.1.length = 4 then
    match p1.2 with
    | c1 :: r1 =>
      if c1 = sep then
        let p2 := r1.span Char.isDigit
        if 1 ≤ p2.1.length ∧ p2.1.length ≤ 2 then
          match p2.2 with
          | c2 :: r2 =>
            if c2 = sep then
              let p3 := r2.span Char.isDigit
              if (1 ≤ p3.1.length ∧ p3.1.length ≤ 2) ∧ p3.2 = [] then
                mkDate (digitsToNat p1.1) (digitsToNat p2.1)
                  (digitsToNat p3.1)
              else none
            else none
          | [] => none
        else none
      else none
    | [] => none
  else none

/-- The `strptime` form `%y/%m/%d`: exactly two year digits, resolved by
CPython's windowing rule (0-68 → 2000s, 69-99 → 1900s). -/
def gregY2 (cs : List Char) : Option Date :=
  let p1 := cs.span Char.isDigit
  if p1.1.length = 2 then
    match p1.2 with
    | c1 :: r1 =>
      if c1 = '/' then
        let p2 := r1.span Char.isDigit
        if 1 ≤ p2.1.length ∧ p2.1.length ≤ 2 then
          match p2.2 with
          | c2 :: r2 =>
            if c2 = '/' then
              let p3 := r2.span Char.isDigit
              if (1 ≤ p3.1.length ∧ p3.1.length ≤ 2) ∧ p3.2 = [] then
                let y2 := digitsToNat p1.1
                mkDate (if y2 ≤ 68 then 2000 + y2 else 1900 + y2)
                  (digitsToNat p2.1) (digitsToNat p3.1)
              else none
            else none
          | [] => none
        else none
      else none
    | [] => none
  else none

/-- The `s.isdigit()` branches of `parse_date`: a nonempty all-digit
string of length 7 parses as ROC, of length 8 as Gregorian `YYYYMMDD`,
any other all-digit length falls through. -/
def parseDigits (cs : List Char) : Option Date :=
  if (!cs.isEmpty) && cs.all Char.isDigit then
    if cs.length = 7 then mk7 cs
    else if cs.length = 8 then mk8 cs
    else none
  else none

/-- String part of `parse_date`, applied to `s = str(cell_value).strip()`:
the `isdigit` branches (length 7 ROC, length 8 Gregorian), then the ROC
separated regex, then the three `strptime` formats, first success wins. -/
def parseStr (s : String) : Option Date :=
  match parseDigits s.data with
  | some d => some d
  | none =>
    match rocSep s.data with
    | some d => some d
    | none =>
      match gregY4 '-' s.data with
      | some d => some d
      | none =>
        match gregY4 '/' s.data with
        | some d => some d
        | none => gregY2 s.data

/-- Embedding of `parse_date`: `None`/empty string short-circuit, direct
`date`/`datetime` values pass through, anything else is parsed from its
stripped string rendering.  Every failure is `none`; nothing raises. -/
def parse_date : CellVal → Option Date
  | .empty => none
  | .dateV d => some d
  | .str s => if s = ("") then none else parseStr (pyStrip s)

/-- Embedding of the `normalize_date` closure in `fill_prices_for_file`:
drop a parsed date whose year is below 1990 or which lies strictly after
`today`. -/
def normalize_date (today : Date) : Option Date → Option Date
  | none => none
  | some d => if d.year < 1990 ∨ dateLt today d then none else some d

/-- A latest/by-date market observation as the script represents it:
optional closing price and optional share volume (both absent together
when the lookup fails). -/
abbrev Obs := Option ℚ × Option ℚ

/-- One remote request issued to the market-data provider. -/
inductive Call where
  | byDate (ticker : String) (start stop : Date)
  | latest (ticker : String)
  deriving DecidableEq, Repr

/-- The remote Yahoo Finance provider: `byDate t a b` is
`yf.download(t, start=a, end=b)` (a `none` result covers both an empty
dataframe and a raised transport error, which the script treats alike);
`latest t` is `yf.download(t, period="5d", interval="1d")`, yielding the
close/volume of its last bar. -/
structure Env where
  byDate : String → Date → Date → Option (ℚ × ℚ)
  latest : String → Option (ℚ × ℚ)

/-- Embedding of `get_yahoo_ohlcv_by_date`: `None` date short-circuits
with no remote call; otherwise one fetch of the exact window
`[date, date + 1 day)`, with failure/empty yielding `(None, None)`.
The second component logs the remote requests issued. -/
def get_yahoo_ohlcv_by_date (env : Env) (ticker : String)
    (date : Option Date) : Obs × List Call :=
  match date with
  | none => ((none, none), [])
  | some d =>
    match env.byDate ticker d (nextDay d) with
    | none => ((none, none), [Call.byDate ticker d (nextDay d)])
    | some cv => ((some cv.1, some cv.2), [Call.byDate ticker d (nextDay d)])

/-- Embedding of `get_yahoo_latest_ohlcv`: one fetch of the trailing
5-day window; failure/empty yields `(None, None)`. -/
def get_yahoo_latest_ohlcv (env : Env) (ticker : String) : Obs × List Call :=
  match env.latest ticker with
  | none => ((none, none), [Call.latest ticker])
  | some cv => ((some cv.1, some cv.2), [Call.latest ticker])

/-- Embedding of `get_tw_ohlcv_by_date`: `None` date short-circuits, else
primary venue `code + ".TW"` first and, only when its close is `None`,
the secondary venue `code + ".TWO"`, whose result is returned as is. -/
def get_tw_ohlcv_by_date (env : Env) (code : String)
    (date : Option Date) : Obs × List Call :=
  match date with
  | none => ((none, none), [])
  | some d =>
    let k := pyStrip code
    let p := get_yahoo_ohlcv_by_date env (k ++ (".TW")) (some d)
    if p.1.1 ≠ none then p
    else
      let s := get_yahoo_ohlcv_by_date env (k ++ (".TWO")) (some d)
      (s.1, p.2 ++ s.2)

/-- The run-scoped latest-observation cache, modelling the Python dict
`latest_cache` (newest binding first; insertion shadows). -/
abbrev Cache := List (String × Obs)

/-- Dict lookup `cache[code]` / membership `code in cache`. -/
def cacheLookup : Cache → String → Option Obs
  | [], _ => none
  | (k, v) :: rest, c => if k = c then some v else cacheLookup rest c

/-- Embedding of `get_tw_latest_ohlcv`: return the cached pair on a hit
(no remote call); on a miss query `.TW`, fall back to `.TWO` only when
the primary close is `None`, and store the result — absent included —
in the cache before returning. -/
def get_tw_latest_ohlcv (env : Env) (code : String) (cache : Cache) :
    Obs × Cache × List Call :=
  let k := pyStrip code
  match cacheLookup cache k with
  | some r => (r, cache, [])
  | none =>
    let p := get_yahoo_latest_ohlcv env (k ++ (".TW"))
    let s := get_yahoo_latest_ohlcv env (k ++ (".TWO"))
    let res := if p.1.1 = none then s.1 else p.1
    let calls := if p.1.1 = none then p.2 ++ s.2 else p.2
    (res, (k, res) :: cache, calls)

/-- Turn an optional provider bar into the script's pair-of-options
result (used to state what a cache miss returns). -/
def obsOf : Option (ℚ × ℚ) → Obs
  | none => (none, none)
  | some cv => (some cv.1, some cv.2)

/-- The latest observation a cache miss resolves to: the primary venue
bar when it exists, otherwise the secondary venue bar (or absent). -/
def latestRes (env : Env) (k : String) : Obs :=
  if env.latest (k ++ (".TW")) = none then obsOf (env.latest (k ++ (".TWO")))
  else obsOf (env.latest (k ++ (".TW")))

/-- One data row of the worksheet as the row loop of
`fill_prices_for_file` reads it: the instrument-code cell (already
`str`-rendered, `none` for an empty cell) and the two raw date cells. -/
structure SheetRow where
  codeCell : Option String
  recvCell : CellVal
  effCell : CellVal
  deriving Repr

/-- Python `str(code)` on the code cell (`None` renders as `"None"`;
that case never reaches the market lookups because the loop breaks on
empty cells first). -/
def codeStr : Option String → String
  | none => ("None")
  | some s => s

/-- The loop's termination test: `code is None or str(code).strip() == ""`. -/
def blankCode : Option String → Bool
  | none => true
  | some s => pyStrip s = ("")

/-- The enriched output the loop writes back into columns G..L for one
row (close prices and lot-converted volumes), plus the two normalized
dates used for the lookups. -/
structure Enriched where
  recvDate : Option Date
  effDate : Option Date
  recvClose : Option ℚ
  recvLots : Option ℤ
  effClose : Option ℚ
  effLots : Option ℤ
  todayClose : Option ℚ
  todayLots : Option ℤ
  deriving Repr

/-- One iteration body of the row loop in `fill_prices_for_file`:
parse and sanity-filter both dates, resolve the two dated observations
and the cached latest observation, convert volumes to lots. -/
def processRow (env : Env) (today : Date) (cache : Cache) (r : SheetRow) :
    Enriched × Cache × List Call :=
  let recvDate := normalize_date today (parse_date r.recvCell)
  let effDate := normalize_date today (parse_date r.effCell)
  let code := codeStr r.codeCell
  let recvR := get_tw_ohlcv_by_date env code recvDate
  let effR := get_tw_ohlcv_by_date env code effDate
  let latR := get_tw_latest_ohlcv env code cache
  (⟨recvDate, effDate,
    recvR.1.1, unit_lots recvR.1.2,
    effR.1.1, unit_lots effR.1.2,
    latR.1.1, unit_lots latR.1.2⟩,
   latR.2.1, recvR.2 ++ effR.2 ++ latR.2.2)

/-- Worksheet read with empty cells beyond the populated region:
openpyxl returns `None` for any cell below the last occupied row. -/
def rowAt (sheet : List SheetRow) (i : Nat) : SheetRow :=
  sheet.getD i ⟨none, .empty, .empty⟩

/-- The `while True` row loop of `fill_prices_for_file`, with explicit
fuel standing for the unbounded iteration: starting at 0-based data
index `i` (worksheet row `i + START_ROW`), stop on the first blank code
cell, else process the row and continue.  Returns the enriched rows, the
final index (= `n_rows`, since `row - START_ROW` equals the index), the
final cache and the remote-call log; `none` only when the fuel runs out. -/
def fillLoop (env : Env) (today : Date) (sheet : List SheetRow) :
    Nat → Nat → Cache → Option (List Enriched × Nat × Cache × List Call)
  | 0, _, _ => none
  | fuel + 1, i, cache =>
    let r := rowAt sheet i
    if blankCode r.codeCell then some ([], i, cache, [])
    else
      let step := processRow env today cache r
      match fillLoop env today sheet fuel (i + 1) step.2.1 with
      | none => none
      | some (rows, fin, cacheF, callsF) =>
        some (step.1 :: rows, fin, cacheF, step.2.2 ++ callsF)

/-- One run of the row loop over a finite worksheet, with fuel
`sheet.length + 1` (shown sufficient by `fill_loop_termination`). -/
def runFill (env : Env) (today : Date) (sheet : List SheetRow) :
    List Enriched × Nat × Cache × List Call :=
  (fillLoop env today sheet (sheet.length + 1) 0 []).getD ([], 0, [], [])

/-- Number of remote requests in a call log that equal the given call
(used to count "latest" fetches per ticker). -/
def callCount (target : Call) (l : List Call) : Nat :=
  l.countP (fun c => decide (c = target))

/-- `START_ROW` of the script: data begins at worksheet row 2. -/
def START_ROW : Nat := 2

/-- The last-20 extraction of `fill_prices_for_file`: with
`last_row = ws2.max_row` (header row 1 plus the data rows) it copies the
header and then rows `max(START_ROW, last_row - 19) .. last_row` in
order.  Modelled on the header and the list of data rows; the copy of a
contiguous tail of rows is `List.drop`. -/
def build_last20 {α : Type} (header : List α) (rows : List (List α)) :
    List α × List (List α) :=
  let lastRow := rows.length + 1
  let startRow := max START_ROW (lastRow - 19)
  (header, rows.drop (startRow - START_ROW))

/-- The truncation marker appended by `send_line_message`. -/
def TRUNC_MARKER : String := "\n...(訊息過長已截斷)"

/-- The length guard in `send_line_message`: messages longer than 1800
characters are cut to their first 1800 characters and the marker is
appended. -/
def send_line_truncate (text : String) : String :=
  if 1800 < pyLen text then pySlice text 1800 ++ TRUNC_MARKER else text

/-- One row of the last-20 dataframe as `build_summary_message` reads it
back with `pd.read_excel`: each used column either holds a value
(rendered to text exactly as the f-string would) or is an empty cell,
which pandas reads as float NaN (`none` here). -/
structure SummaryRow where
  code : Option String
  name : Option String
  recv : Option String
  eff : Option String
  recvPx : Option String
  effPx : Option String
  todayPx : Option String
  deriving DecidableEq, Repr

/-- Python f-string rendering of a cell read back by pandas: an empty
cell became float NaN, and `f"{float('nan')}"` is the text `nan`. -/
def renderCell : Option String → String
  | none => ("nan")
  | some t => t

/-- The per-row detail block appended inside the loop of
`build_summary_message`. -/
def lineOf (r : SummaryRow) : String :=
  renderCell r.code ++ (" ") ++ renderCell r.name ++ ("\n  收文:")
    ++ renderCell r.recv ++ ("  生效:") ++ renderCell r.eff
    ++ ("\n  收文價:") ++ renderCell r.recvPx ++ ("  生效價:")
    ++ renderCell r.effPx ++ ("  今日價:") ++ renderCell r.todayPx

/-- Zero-padded decimal rendering, for `strftime` fields. -/
def padNum (w n : Nat) : String :=
  let s := toString n
  String.mk (List.replicate (w - s.data.length) '0') ++ s

/-- Python `f"{today:%Y-%m-%d}"`. -/
def fmtDate (d : Date) : String :=
  padNum 4 d.year ++ ("-") ++ padNum 2 d.month ++ ("-") ++ padNum 2 d.day

/-- Embedding of `build_summary_message`: the dataframe read from the
last-20 file is `none` when reading failed and `some rows` otherwise
(an empty dataframe behaves like a failed read: no detail lines).  The
detail lines are accumulated exactly as the Python loop appends them. -/
def build_summary_message (today : Date) (nRows : Nat)
    (df : Option (List SummaryRow)) : String :=
  let lines : List String :=
    match df with
    | none => []
    | some rows => rows.foldl (fun acc r => acc ++ [lineOf r]) []
  let detail := if lines.isEmpty then ("（無明細或讀取失敗）")
    else String.intercalate ("\n\n") lines
  ("📊 今日轉換公司債掃描完成\n")
    ++ ("日期：") ++ fmtDate today ++ ("\n")
    ++ ("總筆數：") ++ toString nRows ++ (" 檔\n")
    ++ ("\n")
    ++ ("📌 最後 20 筆詳細資料：\n")
    ++ detail

/-- Modelled from the spec: the same summary with every absent value
rendered as an empty string, as §4.7 claims ("absent values rendered as
empty").  Used only to compare the implementation against the spec's
words. -/
def renderCellSpec : Option String → String
  | none => ("")
  | some t => t

/-- Modelled from the spec: detail block with absent values empty. -/
def lineOfSpec (r : SummaryRow) : String :=
  renderCellSpec r.code ++ (" ") ++ renderCellSpec r.name ++ ("\n  收文:")
    ++ renderCellSpec r.recv ++ ("  生效:") ++ renderCellSpec r.eff
    ++ ("\n  收文價:") ++ renderCellSpec r.recvPx ++ ("  生效價:")
    ++ renderCellSpec r.effPx ++ ("  今日價:") ++ renderCellSpec r.todayPx

/-- Modelled from the spec: `build_summary_message` with absent values
rendered as empty strings. -/
def build_summary_message_spec (today : Date) (nRows : Nat)
    (df : Option (List SummaryRow)) : String :=
  let lines : List String :=
    match df with
    | none => []
    | some rows => rows.foldl (fun acc r => acc ++ [lineOfSpec r]) []
  let detail := if lines.isEmpty then ("（無明細或讀取失敗）")
    else String.intercalate ("\n\n") lines
  ("📊 今日轉換公司債掃描完成\n")
    ++ ("日期：") ++ fmtDate today ++ ("\n")
    ++ ("總筆數：") ++ toString nRows ++ (" 檔\n")
    ++ ("\n")
    ++ ("📌 最後 20 筆詳細資料：\n")
    ++ detail

/-! Theorems. -/

theorem rhe_nearest (q : ℚ) (z : ℤ) :
    |q - (rhe q : ℚ)| ≤ |q - (z : ℚ)| := by
  have h0 : (⌊q⌋ : ℚ) ≤ q := Int.floor_le q
  have h1 : q < (⌊q⌋ : ℚ) + 1 := Int.lt_floor_add_one q
  have hz : z ≤ ⌊q⌋ ∨ ⌊q⌋ + 1 ≤ z := by omega
  have hzq : (z : ℚ) ≤ (⌊q⌋ : ℚ) ∨ (⌊q⌋ : ℚ) + 1 ≤ (z : ℚ) := by
    rcases hz with h | h
    · exact Or.inl (by exact_mod_cast h)
    · exact Or.inr (by exact_mod_cast h)
  unfold rhe
  split_ifs with hlt hgt hev
  · rcases hzq with h | h
    · rw [abs_of_nonneg (by linarith), abs_of_nonneg (by linarith)]
      linarith
    · rw [abs_of_nonneg (by linarith), abs_of_nonpos (by linarith)]
      linarith
  · rcases hzq with h | h
    · rw [abs_of_nonpos (by push_cast; linarith), abs_of_nonneg (by linarith)]
      push_cast
      linarith
    · rw [abs_of_nonpos (by push_cast; linarith), abs_of_nonpos (by linarith)]
      push_cast
      linarith
  · have hr : q - (⌊q⌋ : ℚ) = 1/2 := by linarith
    rcases hzq with h | h
    · rw [abs_of_nonneg (by linarith), abs_of_nonneg (by linarith)]
      linarith
    · rw [abs_of_nonneg (by linarith), abs_of_nonpos (by linarith)]
      linarith
  · have hr : q - (⌊q⌋ : ℚ) = 1/2 := by linarith
    rcases hzq with h | h
    · rw [abs_of_nonpos (by push_cast; linarith), abs_of_nonneg (by linarith)]
      push_cast
      linarith
    · rw [abs_of_nonpos (by push_cast; linarith), abs_of_nonpos (by linarith)]
      push_cast
      linarith

theorem rhe_tie_even (q : ℚ) (h : |q - (rhe q : ℚ)| = 1/2) : Even (rhe q) := by
  have h0 : (⌊q⌋ : ℚ) ≤ q := Int.floor_le q
  have h1 : q < (⌊q⌋ : ℚ) + 1 := Int.lt_floor_add_one q
  unfold rhe at h ⊢
  split_ifs at h ⊢ with hlt hgt hev
  · rw [abs_of_nonneg (by linarith)] at h
    linarith
  · rw [abs_of_nonpos (by push_cast; linarith)] at h
    push_cast at h
    linarith
  · exact Int.even_iff.mpr hev
  · have : ⌊q⌋ % 2 = 1 := Int.emod_two_eq_zero_or_one ⌊q⌋ |>.resolve_left hev
    refine Int.even_add_one.mpr ?_
    simp [Int.even_iff, this]

theorem rhe_5_2 : rhe (5/2) = 2 := by
  have hf : ⌊(5/2 : ℚ)⌋ = 2 := by
    rw [Int.floor_eq_iff]
    norm_num
  unfold rhe
  rw [hf]
  norm_num

theorem rhe_3_2 : rhe (3/2) = 2 := by
  have hf : ⌊(3/2 : ℚ)⌋ = 1 := by
    rw [Int.floor_eq_iff]
    norm_num
  unfold rhe
  rw [hf]
  norm_num

theorem unit_lots_2500 : unit_lots (some 2500) = some 2 := by
  have h : ((2500 : ℚ)) / 1000 = 5/2 := by norm_num
  simp only [unit_lots]
  rw [if_neg (by norm_num), h, rhe_5_2]

theorem unit_lots_1500 : unit_lots (some 1500) = some 2 := by
  have h : ((1500 : ℚ)) / 1000 = 3/2 := by norm_num
  simp only [unit_lots]
  rw [if_neg (by norm_num), h, rhe_3_2]

/-- Claim C3 counterexample: the claim states `UnitConverter(2500) = 3`,
but the source computes `round(2500 / 1000) = round(2.5)`, and Python's
round-half-to-even yields 2, not 3. -/
theorem unit_converter_2500_counterexample :
    unit_lots (some 2500) ≠ some 3 := by
  rw [unit_lots_2500]
  decide

/-- Claim C3 (amended): a raw share volume of 2500 yields 2 lots, and the
round-half-to-even boundary cases behave accordingly: 1500 ↦ 2 and
2500 ↦ 2 (both ties resolve to the even integer 2). -/
theorem unit_converter_boundary_amended :
    unit_lots (some 2500) = some 2 ∧ unit_lots (some 1500) = some 2 :=
  ⟨unit_lots_2500, unit_lots_1500⟩

/-- Claim C4: the lot conversion yields absent (not zero) on an absent or
zero share volume; otherwise it yields the volume divided by the fixed
lot size 1000, rounded to a nearest integer (`rhe_nearest` equation)
with ties going to the even integer; and `processRow` applies this same
rule to the received-date, effective-date and latest volumes. -/
theorem unit_lots_rule (q : ℚ) (hq : q ≠ 0) :
    unit_lots none = none ∧
    unit_lots (some 0) = none ∧
    unit_lots (some q) = some (rhe (q / 1000)) ∧
    (∀ z : ℤ, |q / 1000 - (rhe (q / 1000) : ℚ)| ≤ |q / 1000 - (z : ℚ)|) ∧
    (|q / 1000 - (rhe (q / 1000) : ℚ)| = 1/2 → Even (rhe (q / 1000))) ∧
    (∀ (env : Env) (today : Date) (cache : Cache) (r : SheetRow),
      (processRow env today cache r).1.recvLots
          = unit_lots (get_tw_ohlcv_by_date env (codeStr r.codeCell)
              (normalize_date today (parse_date r.recvCell))).1.2 ∧
      (processRow env today cache r).1.effLots
          = unit_lots (get_tw_ohlcv_by_date env (codeStr r.codeCell)
              (normalize_date today (parse_date r.effCell))).1.2 ∧
      (processRow env today cache r).1.todayLots
          = unit_lots (get_tw_latest_ohlcv env (codeStr r.codeCell) cache).1.2) := by
  refine ⟨rfl, by simp [unit_lots], ?_, rhe_nearest (q / 1000),
    rhe_tie_even (q / 1000), fun env today cache r => ⟨rfl, rfl, rfl⟩⟩
  simp only [unit_lots]
  rw [if_neg hq]

/-- Witness for `unit_lots_rule` at the concrete volume 2500. -/
theorem unit_lots_rule_witness :
    (2500 : ℚ) ≠ 0 ∧ unit_lots (some 2500) = some (rhe (2500 / 1000)) :=
  ⟨by norm_num, (unit_lots_rule 2500 (by norm_num)).2.2.1⟩

theorem digit_not_ws (c : Char) (h : c.isDigit = true) : pyWS c = false := by
  simp only [pyWS, Char.isWhitespace, Bool.or_eq_false_iff,
    decide_eq_false_iff_not]
  refine ⟨⟨⟨?_, ?_⟩, ?_⟩, ?_⟩ <;> rintro rfl <;> exact absurd h (by decide)

theorem dropWhile_ws_of_digits (l : List Char)
    (h : ∀ c ∈ l, c.isDigit = true) : l.dropWhile pyWS = l := by
  cases l with
  | nil => rfl
  | cons a t =>
    simp [List.dropWhile_cons, digit_not_ws a (h a (List.mem_cons_self a t))]

theorem stripList_of_digits (l : List Char)
    (h : ∀ c ∈ l, c.isDigit = true) : stripList l = l := by
  unfold stripList
  rw [dropWhile_ws_of_digits l h,
    dropWhile_ws_of_digits l.reverse (fun c hc => h c (List.mem_reverse.mp hc)),
    List.reverse_reverse]

theorem pyStrip_of_digits (s : String)
    (h : ∀ c ∈ s.data, c.isDigit = true) : pyStrip s = s := by
  rcases s with ⟨l⟩
  show String.mk (stripList l) = String.mk l
  rw [stripList_of_digits l h]

theorem takeWhile_digits (l : List Char)
    (h : ∀ c ∈ l, c.isDigit = true) : l.takeWhile Char.isDigit = l := by
  induction l with
  | nil => rfl
  | cons a t ih =>
    simp [List.takeWhile_cons, h a (List.mem_cons_self a t),
      ih (fun c hc => h c (List.mem_cons_of_mem a hc))]

theorem dropWhile_digits (l : List Char)
    (h : ∀ c ∈ l, c.isDigit = true) : l.dropWhile Char.isDigit = [] := by
  induction l with
  | nil => rfl
  | cons a t ih =>
    simp [List.dropWhile_cons, h a (List.mem_cons_self a t),
      ih (fun c hc => h c (List.mem_cons_of_mem a hc))]

theorem span_digits (l : List Char)
    (h : ∀ c ∈ l, c.isDigit = true) : l.span Char.isDigit = (l, []) := by
  rw [List.span_eq_take_drop, takeWhile_digits l h, dropWhile_digits l h]

/-- Claim C5: on an all-digit string of length 7, `parse_date` adds 1911
to the first three digits to obtain the Gregorian year, reads the next
two digits as the month and the last two as the day, and returns exactly
`mkDate` of those components — `some` of the calendar date when they are
valid, `none` (never an error) when they are not, e.g. month 13. -/
theorem parse_date_roc7 (s : String) (h7 : s.data.length = 7)
    (hd : ∀ c ∈ s.data, c.isDigit = true) :
    parse_date (.str s) =
      mkDate (digitsToNat (s.data.take 3) + 1911)
        (digitsToNat ((s.data.drop 3).take 2))
        (digitsToNat ((s.data.drop 5).take 2)) := by
  have hne : ¬(s = ("")) := by
    rintro rfl
    exact absurd h7 (by decide)
  show (if s = ("") then none else parseStr (pyStrip s)) = _
  rw [if_neg hne, pyStrip_of_digits s hd]
  have htk : s.data.takeWhile Char.isDigit = s.data := takeWhile_digits _ hd
  have hro : rocSep s.data = none := by
    simp [rocSep, htk, h7]
  have hg1 : gregY4 '-' s.data = none := by
    simp [gregY4, htk, h7]
  have hg2 : gregY4 '/' s.data = none := by
    simp [gregY4, htk, h7]
  have hgy : gregY2 s.data = none := by
    simp [gregY2, htk, h7]
  have hemp : s.data.isEmpty = false := by
    cases hsd : s.data with
    | nil => rw [hsd] at h7; exact absurd h7 (by decide)
    | cons a t => rfl
  have hdig : parseDigits s.data = mk7 s.data := by
    simp only [parseDigits, hemp, Bool.not_false, Bool.true_and,
      List.all_eq_true]
    rw [if_pos hd, if_pos h7]
  show parseStr s = mk7 s.data
  simp only [parseStr, hdig]
  cases hmk : mk7 s.data with
  | some d => simp
  | none => simp [hro, hg1, hg2, hgy]

/-- Witness for `parse_date_roc7`: a valid ROC string parses with the
+1911 year offset; an invalid month yields absent. -/
theorem parse_date_roc7_witness :
    parse_date (.str ("1130115")) = some ⟨2024, 1, 15⟩ ∧
    parse_date (.str ("1131301")) = none := by
  constructor
  · rw [parse_date_roc7 ("1130115") (by decide) (by decide)]
    decide
  · rw [parse_date_roc7 ("1131301") (by decide) (by decide)]
    decide

theorem not_dateLt (a b : Date) : ¬ dateLt a b ↔ dateLe b a := by
  rcases a with ⟨y1, m1, d1⟩
  rcases b with ⟨y2, m2, d2⟩
  simp only [dateLt, dateLe, Date.mk.injEq]
  omega

theorem normalize_keep_iff (today d : Date) :
    normalize_date today (some d) = some d ↔ 1990 ≤ d.year ∧ dateLe d today := by
  show (if d.year < 1990 ∨ dateLt today d then none else some d) = some d ↔ _
  by_cases hc : d.year < 1990 ∨ dateLt today d
  · rw [if_pos hc]
    constructor
    · intro h
      exact absurd h (by simp)
    · rintro ⟨hy, hle⟩
      rcases hc with h | h
      · omega
      · exact absurd h ((not_dateLt today d).mpr hle)
  · rw [if_neg hc]
    push_neg at hc
    exact ⟨fun _ => ⟨by omega, (not_dateLt today d).mp hc.2⟩, fun _ => rfl⟩

/-- Claim C6: `normalize_date` returns a present date unchanged exactly
when its year is at least 1990 and it is not after `today`; in every
other case (absent input, year below 1990, or date after today) it
returns absent, so every present output satisfies the invariant. -/
theorem normalize_date_spec (today : Date) (x : Option Date) :
    normalize_date today none = none ∧
    (∀ d, x = some d →
      (normalize_date today x = some d ↔ 1990 ≤ d.year ∧ dateLe d today)) ∧
    (∀ d, normalize_date today x = some d →
      x = some d ∧ 1990 ≤ d.year ∧ dateLe d today) ∧
    (∀ d, x = some d → ¬(1990 ≤ d.year ∧ dateLe d today) →
      normalize_date today x = none) := by
  refine ⟨rfl, ?_, ?_, ?_⟩
  · rintro d rfl
    exact normalize_keep_iff today d
  · intro d h
    rcases x with _ | d0
    · exact absurd h (by simp [normalize_date])
    · have hd : d0 = d := by
        revert h
        show (if d0.year < 1990 ∨ dateLt today d0 then none else some d0) = some d → _
        by_cases hc : d0.year < 1990 ∨ dateLt today d0
        · rw [if_pos hc]
          intro h
          exact absurd h (by simp)
        · rw [if_neg hc]
          intro h
          injection h
      subst hd
      have hk := h
      rw [normalize_keep_iff today d0] at hk
      exact ⟨rfl, hk.1, hk.2⟩
  · rintro d rfl hn
    show (if d.year < 1990 ∨ dateLt today d then none else some d) = none
    rw [if_pos]
    by_contra hc
    push_neg at hc
    exact hn ⟨by omega, (not_dateLt today d).mp hc.2⟩

/-- Witness for `normalize_date_spec`: a kept date and a rejected one. -/
theorem normalize_date_spec_witness :
    normalize_date ⟨2025, 10, 12⟩ (some ⟨2024, 1, 15⟩) = some ⟨2024, 1, 15⟩ ∧
    normalize_date ⟨2025, 10, 12⟩ (some ⟨1989, 12, 31⟩) = none :=
  ⟨((normalize_date_spec ⟨2025, 10, 12⟩ (some ⟨2024, 1, 15⟩)).2.1
      ⟨2024, 1, 15⟩ rfl).mpr (by decide),
   (normalize_date_spec ⟨2025, 10, 12⟩ (some ⟨1989, 12, 31⟩)).2.2.2
      ⟨1989, 12, 31⟩ rfl (by decide)⟩

/-- Claim C7: the last-20 builder copies the header unchanged and keeps
exactly `min 20 n` data rows, a suffix of the data (original relative
order, taken from the tail); an empty dataset keeps the header and no
data rows. -/
theorem build_last20_spec (α : Type) (header : List α) (rows : List (List α)) :
    (build_last20 header rows).1 = header ∧
    (build_last20 header rows).2.length = min 20 rows.length ∧
    (build_last20 header rows).2 <:+ rows ∧
    (rows = [] → (build_last20 header rows).2 = []) := by
  refine ⟨rfl, ?_, List.drop_suffix _ _, ?_⟩
  · simp only [build_last20, START_ROW, List.length_drop]
    omega
  · rintro rfl
    rfl

/-- Witness for `build_last20_spec`: the empty dataset keeps the header
and yields no data rows; a 3-row dataset is kept whole. -/
theorem build_last20_spec_witness :
    (build_last20 ([0]) ([] : List (List Nat))).2 = [] ∧
    (build_last20 ([0]) ([[1], [2], [3]] : List (List Nat))).2.length
      = min 20 3 :=
  ⟨(build_last20_spec Nat ([0]) []).2.2.2 rfl,
   (build_last20_spec Nat ([0]) [[1], [2], [3]]).2.1⟩

theorem pyLen_append (a b : String) : pyLen (a ++ b) = pyLen a + pyLen b := by
  rcases a with ⟨la⟩
  rcases b with ⟨lb⟩
  rw [show ((⟨la⟩ : String) ++ (⟨lb⟩ : String)) = (⟨la ++ lb⟩ : String) from rfl]
  simp [pyLen]

/-- Claim C8: the text handed to the notification channel is never
longer than 1800 characters plus the marker length; text over 1800
characters is cut to exactly its first 1800 characters with the marker
appended, and text of at most 1800 characters passes unchanged. -/
theorem send_line_truncation (t : String) :
    pyLen (send_line_truncate t) ≤ 1800 + pyLen TRUNC_MARKER ∧
    (1800 < pyLen t →
      send_line_truncate t = pySlice t 1800 ++ TRUNC_MARKER) ∧
    (pyLen t ≤ 1800 → send_line_truncate t = t) := by
  unfold send_line_truncate
  split_ifs with h
  · refine ⟨?_, fun _ => rfl, fun hle => by omega⟩
    rw [pyLen_append]
    have hs : pyLen (pySlice t 1800) ≤ 1800 := by
      simp [pyLen, pySlice]
    omega
  · exact ⟨by omega, fun hgt => absurd hgt h, fun _ => rfl⟩

/-- Witness for `send_line_truncation`: an overlong input is cut with
the marker appended; a short input passes through unchanged. -/
theorem send_line_truncation_witness :
    1800 < pyLen (String.mk (List.replicate 1801 'a')) ∧
    send_line_truncate (String.mk (List.replicate 1801 'a'))
      = pySlice (String.mk (List.replicate 1801 'a')) 1800 ++ TRUNC_MARKER ∧
    pyLen ("ok") ≤ 1800 ∧ send_line_truncate ("ok") = ("ok") :=
  ⟨by simp [pyLen], (send_line_truncation _).2.1 (by simp [pyLen]),
   by decide, (send_line_truncation ("ok")).2.2 (by decide)⟩

theorem str_append_left_inj {a b : String} (t : String)
    (h : a ++ t = b ++ t) : a = b := by
  rcases a with ⟨la⟩
  rcases b with ⟨lb⟩
  rcases t with ⟨lt⟩
  have hd : la ++ lt = lb ++ lt := congrArg String.data h
  exact congrArg String.mk ((List.append_left_inj lt).mp hd)

theorem tw_ne_two (a b : String) : a ++ (".TW") ≠ b ++ (".TWO") := by
  intro h
  rcases a with ⟨la⟩
  rcases b with ⟨lb⟩
  have hd : la ++ ([ '.', 'T', 'W']) = lb ++ ([ '.', 'T', 'W', 'O']) :=
    congrArg String.data h
  have h2 : la ++ ([ '.', 'T']) ++ ([ 'W']) = lb ++ ([ '.', 'T', 'W']) ++ ([ 'O']) := by
    simpa [List.append_assoc] using hd
  have h3 := List.append_inj_right' h2 rfl
  exact absurd h3 (by decide)

theorem two_ne_tw (a b : String) : a ++ (".TWO") ≠ b ++ (".TW") :=
  fun h => tw_ne_two b a h.symm

/-- Claim C2: `get_tw_ohlcv_by_date` returns an absent observation with
no remote call on an absent date; otherwise it fetches the exact window
from the date to the next day on the primary venue suffix, retries the
secondary suffix only when the primary yields no bar, and returns the
first successful close/volume pair, or an absent pair when both fail. -/
theorem observation_by_date_fallback (env : Env) (code : String) (d : Date) :
    get_tw_ohlcv_by_date env code none = ((none, none), []) ∧
    (∀ c v, env.byDate (pyStrip code ++ (".TW")) d (nextDay d) = some (c, v) →
      get_tw_ohlcv_by_date env code (some d) =
        ((some c, some v),
         [Call.byDate (pyStrip code ++ (".TW")) d (nextDay d)])) ∧
    (env.byDate (pyStrip code ++ (".TW")) d (nextDay d) = none →
      get_tw_ohlcv_by_date env code (some d) =
        (obsOf (env.byDate (pyStrip code ++ (".TWO")) d (nextDay d)),
         [Call.byDate (pyStrip code ++ (".TW")) d (nextDay d),
          Call.byDate (pyStrip code ++ (".TWO")) d (nextDay d)])) := by
  refine ⟨rfl, ?_, ?_⟩
  · intro c v h
    simp [get_tw_ohlcv_by_date, get_yahoo_ohlcv_by_date, h]
  · intro h
    cases hs : env.byDate (pyStrip code ++ (".TWO")) d (nextDay d) with
    | none => simp [get_tw_ohlcv_by_date, get_yahoo_ohlcv_by_date, h, hs, obsOf]
    | some cv => simp [get_tw_ohlcv_by_date, get_yahoo_ohlcv_by_date, h, hs, obsOf]

/-- Witness for `observation_by_date_fallback`: a provider with a bar on
the primary venue only, looked up at 2024-01-15. -/
theorem observation_by_date_fallback_witness :
    get_tw_ohlcv_by_date
        (⟨fun t _ _ => if t = ("1234.TW") then some (10, 2000) else none,
          fun _ => none⟩ : Env) ("1234") (some ⟨2024, 1, 15⟩) =
      ((some 10, some 2000),
       [Call.byDate ("1234.TW") ⟨2024, 1, 15⟩ ⟨2024, 1, 16⟩]) :=
  (observation_by_date_fallback
      (⟨fun t _ _ => if t = ("1234.TW") then some (10, 2000) else none,
        fun _ => none⟩ : Env) ("1234") ⟨2024, 1, 15⟩).2.1 10 2000 rfl

theorem latest_hit (env : Env) (code : String) (cache : Cache) (r : Obs)
    (h : cacheLookup cache (pyStrip code) = some r) :
    get_tw_latest_ohlcv env code cache = (r, cache, []) := by
  simp [get_tw_latest_ohlcv, h]

theorem latest_miss (env : Env) (code : String) (cache : Cache)
    (h : cacheLookup cache (pyStrip code) = none) :
    get_tw_latest_ohlcv env code cache =
      (latestRes env (pyStrip code),
       (pyStrip code, latestRes env (pyStrip code)) :: cache,
       if env.latest (pyStrip code ++ (".TW")) = none
       then [Call.latest (pyStrip code ++ (".TW")),
             Call.latest (pyStrip code ++ (".TWO"))]
       else [Call.latest (pyStrip code ++ (".TW"))]) := by
  simp only [get_tw_latest_ohlcv, h]
  cases h1 : env.latest (pyStrip code ++ (".TW")) with
  | none =>
    cases h2 : env.latest (pyStrip code ++ (".TWO")) with
    | none => simp [get_yahoo_latest_ohlcv, h1, h2, latestRes, obsOf]
    | some cv => simp [get_yahoo_latest_ohlcv, h1, h2, latestRes, obsOf]
  | some cv => simp [get_yahoo_latest_ohlcv, h1, latestRes, obsOf]

theorem latest_cache_lookup (env : Env) (code : String) (cache : Cache)
    (k : String) :
    cacheLookup (get_tw_latest_ohlcv env code cache).2.1 k =
      if pyStrip code = k ∧ cacheLookup cache (pyStrip code) = none
      then some (get_tw_latest_ohlcv env code cache).1
      else cacheLookup cache k := by
  by_cases hm : cacheLookup cache (pyStrip code) = none
  · rw [latest_miss env code cache hm]
    by_cases hk : pyStrip code = k
    · subst hk
      simp [cacheLookup, hm]
    · simp [cacheLookup, hk, hm]
  · obtain ⟨r, hr⟩ : ∃ r, cacheLookup cache (pyStrip code) = some r := by
      rcases hcv : cacheLookup cache (pyStrip code) with _ | r
      · exact absurd hcv hm
      · exact ⟨r, rfl⟩
    rw [latest_hit env code cache r hr]
    simp [hr]

theorem callCount_append (t : Call) (l1 l2 : List Call) :
    callCount t (l1 ++ l2) = callCount t l1 + callCount t l2 := by
  simp [callCount]

theorem byDate_no_latest (env : Env) (code : String) (d : Option Date)
    (t : String) :
    callCount (Call.latest t) (get_tw_ohlcv_by_date env code d).2 = 0 := by
  cases d with
  | none => rfl
  | some dd =>
    cases h1 : env.byDate (pyStrip code ++ (".TW")) dd (nextDay dd) with
    | none =>
      cases h2 : env.byDate (pyStrip code ++ (".TWO")) dd (nextDay dd) with
      | none =>
        simp [get_tw_ohlcv_by_date, get_yahoo_ohlcv_by_date, h1, h2, callCount]
      | some cv =>
        simp [get_tw_ohlcv_by_date, get_yahoo_ohlcv_by_date, h1, h2, callCount]
    | some cv =>
      simp [get_tw_ohlcv_by_date, get_yahoo_ohlcv_by_date, h1, callCount]

theorem processRow_latCount (env : Env) (today : Date) (cache : Cache)
    (r : SheetRow) (t : String) :
    callCount (Call.latest t) (processRow env today cache r).2.2
      = callCount (Call.latest t)
          (get_tw_latest_ohlcv env (codeStr r.codeCell) cache).2.2 := by
  show callCount (Call.latest t) (_ ++ _ ++ _) = _
  rw [callCount_append, callCount_append, byDate_no_latest, byDate_no_latest]
  omega

theorem processRow_cache (env : Env) (today : Date) (cache : Cache)
    (r : SheetRow) :
    (processRow env today cache r).2.1
      = (get_tw_latest_ohlcv env (codeStr r.codeCell) cache).2.1 := rfl

theorem latest_calls_self_bound (env : Env) (code : String) (cache : Cache) :
    callCount (Call.latest (pyStrip code ++ (".TW")))
        (get_tw_latest_ohlcv env code cache).2.2 ≤ 1 ∧
    callCount (Call.latest (pyStrip code ++ (".TWO")))
        (get_tw_latest_ohlcv env code cache).2.2 ≤ 1 := by
  by_cases hm : cacheLookup cache (pyStrip code) = none
  · rw [latest_miss env code cache hm]
    have hne1 : pyStrip code ++ (".TWO") ≠ pyStrip code ++ (".TW") :=
      two_ne_tw _ _
    have hne2 : pyStrip code ++ (".TW") ≠ pyStrip code ++ (".TWO") :=
      tw_ne_two _ _
    by_cases h1 : env.latest (pyStrip code ++ (".TW")) = none
    · simp [h1, callCount, List.countP_cons, hne1, hne2]
    · simp [h1, callCount, List.countP_cons, hne1, hne2]
  · obtain ⟨r, hr⟩ : ∃ r, cacheLookup cache (pyStrip code) = some r := by
      rcases hcv : cacheLookup cache (pyStrip code) with _ | r
      · exact absurd hcv hm
      · exact ⟨r, rfl⟩
    rw [latest_hit env code cache r hr]
    simp [callCount]

theorem latest_calls_other_zero (env : Env) (code : String) (cache : Cache)
    (k : String) (hk : pyStrip code ≠ k) :
    callCount (Call.latest (k ++ (".TW")))
        (get_tw_latest_ohlcv env code cache).2.2 = 0 ∧
    callCount (Call.latest (k ++ (".TWO")))
        (get_tw_latest_ohlcv env code cache).2.2 = 0 := by
  have hne1 : pyStrip code ++ (".TW") ≠ k ++ (".TW") :=
    fun h => hk (str_append_left_inj _ h)
  have hne2 : pyStrip code ++ (".TWO") ≠ k ++ (".TWO") :=
    fun h => hk (str_append_left_inj _ h)
  have hne3 : pyStrip code ++ (".TW") ≠ k ++ (".TWO") := tw_ne_two _ _
  have hne4 : pyStrip code ++ (".TWO") ≠ k ++ (".TW") := two_ne_tw _ _
  by_cases hm : cacheLookup cache (pyStrip code) = none
  · rw [latest_miss env code cache hm]
    by_cases h1 : env.latest (pyStrip code ++ (".TW")) = none
    · simp [h1, callCount, List.countP_cons, hne1, hne2, hne3, hne4]
    · simp [h1, callCount, List.countP_cons, hne1, hne2, hne3, hne4]
  · obtain ⟨r, hr⟩ : ∃ r, cacheLookup cache (pyStrip code) = some r := by
      rcases hcv : cacheLookup cache (pyStrip code) with _ | r
      · exact absurd hcv hm
      · exact ⟨r, rfl⟩
    rw [latest_hit env code cache r hr]
    simp [callCount]

theorem rowAt_lt (sheet : List SheetRow) (i : Nat) (hi : i < sheet.length) :
    rowAt sheet i = sheet[i] := by
  simp [rowAt, List.getD_eq_getElem?_getD, List.getElem?_eq_getElem hi]

theorem rowAt_ge (sheet : List SheetRow) (i : Nat) (hi : sheet.length ≤ i) :
    rowAt sheet i = ⟨none, .empty, .empty⟩ := by
  simp [rowAt, List.getD_eq_getElem?_getD, List.getElem?_eq_none hi]

theorem fillLoop_some (env : Env) (today : Date) (sheet : List SheetRow) :
    ∀ (fuel i : Nat) (cache : Cache), sheet.length - i < fuel →
      ∃ rows fin cacheF calls,
        fillLoop env today sheet fuel i cache = some (rows, fin, cacheF, calls) ∧
        fin = i + ((sheet.drop i).takeWhile
          (fun r => !(blankCode r.codeCell))).length ∧
        rows.length = ((sheet.drop i).takeWhile
          (fun r => !(blankCode r.codeCell))).length := by
  intro fuel
  induction fuel with
  | zero => intro i cache h; omega
  | succ fuel ih =>
    intro i cache h
    by_cases hb : blankCode (rowAt sheet i).codeCell = true
    · have htw : (sheet.drop i).takeWhile (fun r => !(blankCode r.codeCell))
          = [] := by
        rcases Nat.lt_or_ge i sheet.length with hi | hi
        · rw [List.drop_eq_getElem_cons hi, List.takeWhile_cons,
            ← rowAt_lt sheet i hi]
          simp [hb]
        · simp [List.drop_eq_nil_of_le hi]
      exact ⟨[], i, cache, [], by simp [fillLoop, hb], by simp [htw],
        by simp [htw]⟩
    · have hbf : blankCode (rowAt sheet i).codeCell = false := by
        revert hb
        cases blankCode (rowAt sheet i).codeCell <;> simp
      have hi : i < sheet.length := by
        by_contra hge
        push_neg at hge
        rw [rowAt_ge sheet i hge] at hbf
        exact absurd hbf (by decide)
      have htw : (sheet.drop i).takeWhile (fun r => !(blankCode r.codeCell))
          = rowAt sheet i ::
            (sheet.drop (i + 1)).takeWhile (fun r => !(blankCode r.codeCell)) := by
        rw [List.drop_eq_getElem_cons hi, List.takeWhile_cons,
          ← rowAt_lt sheet i hi]
        simp [hbf]
      obtain ⟨rows, fin, cacheF, calls, heq, hfin, hlen⟩ :=
        ih (i + 1) (processRow env today cache (rowAt sheet i)).2.1 (by omega)
      refine ⟨(processRow env today cache (rowAt sheet i)).1 :: rows, fin,
        cacheF, (processRow env today cache (rowAt sheet i)).2.2 ++ calls,
        ?_, ?_, ?_⟩
      · simp [fillLoop, hbf, heq]
      · rw [hfin, htw]
        simp only [List.length_cons]
        omega
      · rw [htw]
        simp only [List.length_cons, hlen]

theorem fillLoop_latCount (env : Env) (today : Date) (sheet : List SheetRow)
    (k : String) :
    ∀ (fuel i : Nat) (cache : Cache) res,
      fillLoop env today sheet fuel i cache = some res →
      callCount (Call.latest (k ++ (".TW"))) res.2.2.2
          ≤ (if cacheLookup cache k = none then 1 else 0) ∧
      callCount (Call.latest (k ++ (".TWO"))) res.2.2.2
          ≤ (if cacheLookup cache k = none then 1 else 0) := by
  intro fuel
  induction fuel with
  | zero => intro i cache res h; exact absurd h (by simp [fillLoop])
  | succ fuel ih =>
    intro i cache res h
    rcases res with ⟨rows, fin, cacheF, calls⟩
    by_cases hb : blankCode (rowAt sheet i).codeCell = true
    · simp [fillLoop, hb] at h
      obtain ⟨rfl, rfl, rfl, rfl⟩ := h
      constructor <;> simp [callCount]
    · have hbf : blankCode (rowAt sheet i).codeCell = false := by
        revert hb
        cases blankCode (rowAt sheet i).codeCell <;> simp
      rcases hrec : fillLoop env today sheet fuel (i + 1)
          (processRow env today cache (rowAt sheet i)).2.1 with _ | res'
      · simp [fillLoop, hbf, hrec] at h
      · rcases res' with ⟨rows', fin', cacheF', callsF'⟩
        simp [fillLoop, hbf, hrec] at h
        obtain ⟨rfl, rfl, rfl, rfl⟩ := h
        have hrw := processRow_latCount env today cache (rowAt sheet i)
        have hcache := processRow_cache env today cache (rowAt sheet i)
        have hrest := ih (i + 1) _ _ hrec
        dsimp only at hrest
        rw [hcache] at hrest
        set rcode := codeStr (rowAt sheet i).codeCell with hrc
        by_cases hk : pyStrip rcode = k
        · by_cases hc : cacheLookup cache k = none
          · have hself := latest_calls_self_bound env rcode cache
            rw [hk] at hself
            have hnew : cacheLookup
                (get_tw_latest_ohlcv env rcode cache).2.1 k = some
                  (get_tw_latest_ohlcv env rcode cache).1 := by
              rw [latest_cache_lookup, if_pos ⟨hk, by rw [hk]; exact hc⟩]
            rw [hnew] at hrest
            simp only [reduceCtorEq, if_false] at hrest
            rw [if_pos hc]
            constructor
            · show callCount _ (_ ++ _) ≤ _
              rw [callCount_append, hrw]
              omega
            · show callCount _ (_ ++ _) ≤ _
              rw [callCount_append, hrw]
              omega
          · obtain ⟨rv, hrv⟩ : ∃ rv, cacheLookup cache k = some rv := by
              rcases hcv : cacheLookup cache k with _ | rv
              · exact absurd hcv hc
              · exact ⟨rv, rfl⟩
            have hhit := latest_hit env rcode cache rv (by rw [hk]; exact hrv)
            rw [hhit] at hrest
            simp only [hrv, reduceCtorEq, if_false] at hrest ⊢
            constructor
            · show callCount _ (_ ++ _) ≤ _
              rw [callCount_append, hrw, hhit]
              simpa [callCount] using hrest.1
            · show callCount _ (_ ++ _) ≤ _
              rw [callCount_append, hrw, hhit]
              simpa [callCount] using hrest.2
        · have hzero := latest_calls_other_zero env rcode cache k hk
          have hnew : cacheLookup (get_tw_latest_ohlcv env rcode cache).2.1 k
              = cacheLookup cache k := by
            rw [latest_cache_lookup,
              if_neg (by rintro ⟨h1, _⟩; exact hk h1)]
          rw [hnew] at hrest
          constructor
          · show callCount _ (_ ++ _) ≤ _
            rw [callCount_append, hrw, hzero.1]
            omega
          · show callCount _ (_ ++ _) ≤ _
            rw [callCount_append, hrw, hzero.2]
            omega

/-- Claim C10: on every finite worksheet the row loop of
`fill_prices_for_file` terminates (fuel `sheet.length + 1` suffices,
because every cell below the populated region reads as empty), processes
exactly the contiguous block of rows from row 2 whose code cell is
neither empty nor blank after stripping — stopping at the first row that
fails the test — and returns `n_rows` equal to the number of rows so
processed. -/
theorem fill_loop_termination (env : Env) (today : Date)
    (sheet : List SheetRow) :
    ∃ rows fin cacheF calls,
      fillLoop env today sheet (sheet.length + 1) 0 [] =
        some (rows, fin, cacheF, calls) ∧
      runFill env today sheet = (rows, fin, cacheF, calls) ∧
      fin = (sheet.takeWhile (fun r => !(blankCode r.codeCell))).length ∧
      rows.length = fin := by
  obtain ⟨rows, fin, cacheF, calls, heq, hfin, hlen⟩ :=
    fillLoop_some env today sheet (sheet.length + 1) 0 [] (by omega)
  refine ⟨rows, fin, cacheF, calls, heq, ?_, ?_, ?_⟩
  · simp [runFill, heq]
  · simpa using hfin
  · rw [hlen, hfin]
    simp

/-- Claim C1: within one run the latest-price resolver performs at most
one remote latest fetch per instrument code: a cache hit returns the
cached pair with no remote call; a cache miss queries the primary venue
then the secondary only when the primary yields nothing, stores the
result (absent included) in the cache before returning, and an
immediately following call returns that cached pair with no call; and
over a whole run starting from the empty cache, each venue ticker of
each code is fetched at most once. -/
theorem latest_single_fetch (env : Env) (today : Date)
    (sheet : List SheetRow) (code : String) (cache : Cache) (r : Obs) :
    (cacheLookup cache (pyStrip code) = some r →
      get_tw_latest_ohlcv env code cache = (r, cache, [])) ∧
    (cacheLookup cache (pyStrip code) = none →
      (get_tw_latest_ohlcv env code cache).1 = latestRes env (pyStrip code) ∧
      (get_tw_latest_ohlcv env code cache).2.2 =
        (if env.latest (pyStrip code ++ (".TW")) = none
         then [Call.latest (pyStrip code ++ (".TW")),
               Call.latest (pyStrip code ++ (".TWO"))]
         else [Call.latest (pyStrip code ++ (".TW"))]) ∧
      cacheLookup (get_tw_latest_ohlcv env code cache).2.1 (pyStrip code)
        = some (get_tw_latest_ohlcv env code cache).1 ∧
      get_tw_latest_ohlcv env code (get_tw_latest_ohlcv env code cache).2.1
        = ((get_tw_latest_ohlcv env code cache).1,
           (get_tw_latest_ohlcv env code cache).2.1, [])) ∧
    callCount (Call.latest (pyStrip code ++ (".TW")))
        (runFill env today sheet).2.2.2 ≤ 1 ∧
    callCount (Call.latest (pyStrip code ++ (".TWO")))
        (runFill env today sheet).2.2.2 ≤ 1 := by
  have hrun : ∀ t : String,
      callCount (Call.latest t) (runFill env today sheet).2.2.2
        ≤ (if cacheLookup ([] : Cache) (pyStrip code) = none then 1 else 0) →
      True := fun _ _ => trivial
  obtain ⟨rows, fin, cacheF, calls, heq, _, _⟩ :=
    fillLoop_some env today sheet (sheet.length + 1) 0 [] (by omega)
  have hcnt := fillLoop_latCount env today sheet (pyStrip code)
    (sheet.length + 1) 0 [] _ heq
  have hgetd : (runFill env today sheet).2.2.2 = calls := by
    simp [runFill, heq]
  refine ⟨fun h => latest_hit env code cache r h, fun h => ?_, ?_, ?_⟩
  · rw [latest_miss env code cache h]
    refine ⟨rfl, rfl, by simp [cacheLookup], ?_⟩
    exact latest_hit env code _ _ (by simp [cacheLookup])
  · rw [hgetd]
    simpa [cacheLookup] using hcnt.1
  · rw [hgetd]
    simpa [cacheLookup] using hcnt.2

/-- Witness for `latest_single_fetch`: one provider with a primary-venue
bar; a cache hit returns the cached pair with no calls, and a miss
stores and returns the primary bar. -/
theorem latest_single_fetch_witness :
    get_tw_latest_ohlcv
        (⟨fun _ _ _ => none,
          fun t => if t = ("1234.TW") then some (10, 2000) else none⟩ : Env)
        ("1234") [(("1234"), ((some 10, some 2000) : Obs))]
      = ((some 10, some 2000), [(("1234"), ((some 10, some 2000) : Obs))], []) ∧
    (get_tw_latest_ohlcv
        (⟨fun _ _ _ => none,
          fun t => if t = ("1234.TW") then some (10, 2000) else none⟩ : Env)
        ("1234") []).2.2
      = [Call.latest ("1234.TW")] :=
  ⟨(latest_single_fetch
      (⟨fun _ _ _ => none,
        fun t => if t = ("1234.TW") then some (10, 2000) else none⟩ : Env)
      ⟨2025, 10, 12⟩ [] ("1234") [(("1234"), ((some 10, some 2000) : Obs))]
      ((some 10, some 2000))).1 rfl,
   by
    have h := (latest_single_fetch
      (⟨fun _ _ _ => none,
        fun t => if t = ("1234.TW") then some (10, 2000) else none⟩ : Env)
      ⟨2025, 10, 12⟩ [] ("1234") [] ((some 10, some 2000))).2.1 rfl
    rw [h.2.1]
    rfl⟩

theorem foldl_append_lines (rows : List SummaryRow) :
    ∀ acc : List String,
      rows.foldl (fun acc r => acc ++ [lineOf r]) acc
        = acc ++ rows.map lineOf := by
  induction rows with
  | nil => intro acc; simp
  | cons a t ih => intro acc; simp [ih]

/-- Claim C9 counterexample: the claim states every absent price is
rendered as an empty string, but an absent price cell is read back by
pandas as float NaN and the f-string renders it as the text `nan`; on a
window with one row whose three prices are absent, the produced summary
differs from the spec-prescribed one (which renders absent as empty). -/
theorem summary_absent_price_counterexample :
    build_summary_message ⟨2025, 10, 12⟩ 1
        (some [⟨some ("1234"), some ("測試"), some ("1141001"),
               some ("1141002"), none, none, none⟩]) ≠
      build_summary_message_spec ⟨2025, 10, 12⟩ 1
        (some [⟨some ("1234"), some ("測試"), some ("1141001"),
               some ("1141002"), none, none, none⟩]) := by
  decide

/-- Claim C9 (amended): the summary is the fixed preamble line, the run
date, the total row count, and one multi-line entry per windowed row
(code, company name, received/effective dates, three prices), entries
joined by a blank line — with every absent value rendered as the text
`nan` (pandas reads the empty cell as NaN), not as an empty string. -/
theorem summary_structure_amended (today : Date) (nRows : Nat)
    (rows : List SummaryRow) :
    build_summary_message today nRows (some rows) =
      ("📊 今日轉換公司債掃描完成\n")
        ++ ("日期：") ++ fmtDate today ++ ("\n")
        ++ ("總筆數：") ++ toString nRows ++ (" 檔\n")
        ++ ("\n")
        ++ ("📌 最後 20 筆詳細資料：\n")
        ++ (if rows = [] then ("（無明細或讀取失敗）")
            else String.intercalate ("\n\n") (rows.map lineOf)) ∧
    renderCell none = ("nan") ∧
    (rows.map lineOf).length = rows.length := by
  refine ⟨?_, rfl, List.length_map _ _⟩
  rcases rows with _ | ⟨a, t⟩
  · rfl
  · simp [build_summary_message, foldl_append_lines]

end FscCB
